import Mathlib

/-!
Verification development for the `proc-diag` crate (`src/lib.rs`).

The crate builds an `Error` description (message, optional label, ordered
notes, optional span pair) and renders it into a `proc_macro::TokenStream`
as a brace-delimited fragment: a `#[diagnostic::on_unimplemented(...)]`
attribute on an empty `DiagnosticHack` trait, optionally a
`#[diagnostic::do_not_recommend]` attribute, an impl for
`core::convert::Infallible`, a generic gate function, and an always-ill-typed
call whose two boundary tokens carry the configured span anchors.

We model token trees, spans, and the emission algorithm shallowly and prove
the specified properties of the output.
-/

namespace ProcDiag

/-- Source locations (`proc_macro::Span` values) are opaque handles; we model
them as natural numbers.  `Span::call_site()` becomes an explicit parameter of
the rendering function. -/
abbrev Span := Nat

/-- Models `proc_macro::Spacing`.  The crate's `punct!` macro always uses
`Spacing::Joint`. -/
inductive Spacing where
  | joint
  | alone
deriving DecidableEq

/-- Models `proc_macro::Delimiter` (the `None` delimiter is unused by the
crate). -/
inductive Delimiter where
  | parenthesis
  | bracket
  | brace
deriving DecidableEq

/-- Models `proc_macro::TokenTree`: identifiers, punctuation, literals and
delimited groups.  Every token carries a span.  A literal token stores its
source text (for string literals: the escaped content between the quotes). -/
inductive TokenTree where
  | ident (name : String) (sp : Span)
  | punct (ch : Char) (spacing : Spacing) (sp : Span)
  | lit (text : String) (sp : Span)
  | group (delim : Delimiter) (stream : List TokenTree) (sp : Span)

/-- Escape a single character the way a string literal's lexical grammar
requires: quote, backslash and the common control characters get a
backslash escape, every other character (including non-ASCII) is emitted
verbatim. -/
def escapeChar (c : Char) : List Char :=
  if c = '"' then ['\\', '"']
  else if c = '\\' then ['\\', '\\']
  else if c = '\n' then ['\\', 'n']
  else if c = '\r' then ['\\', 'r']
  else if c = '\t' then ['\\', 't']
  else [c]

/-- Escape a character sequence for embedding in a quoted string literal. -/
def escList : List Char → List Char
  | [] => []
  | c :: rest => escapeChar c ++ escList rest

/-- Decode a single escape code (`\"`, `\\`, `\n`, `\r`, `\t`). -/
def unescCode (c : Char) : Option Char :=
  if c = '"' then some '"'
  else if c = '\\' then some '\\'
  else if c = 'n' then some '\n'
  else if c = 'r' then some '\r'
  else if c = 't' then some '\t'
  else none

/-- Un-escape a character sequence: invert `escList`, failing on a dangling
backslash or an unknown escape code. -/
def unescList : List Char → Option (List Char)
  | [] => some []
  | ['\\'] => none
  | '\\' :: d :: rest2 =>
    match unescCode d with
    | none => none
    | some e => (unescList rest2).map (e :: ·)
  | c :: rest => (unescList rest).map (c :: ·)

/-- Models the escaping performed by `proc_macro::Literal::string` (an
external collaborator of the crate): the text of the emitted string literal
is the escaped form of the input. -/
def escapeString (s : String) : String :=
  ⟨escList s.data⟩

/-- Recover the original string from the escaped text of a string literal. -/
def unescapeString (s : String) : Option String :=
  (unescList s.data).map (⟨·⟩)

theorem unescList_escList (l : List Char) : unescList (escList l) = some l := by
  induction l with
  | nil => rfl
  | cons c rest ih =>
    by_cases h1 : c = '"'
    · subst h1; simp [escList, escapeChar, unescList, unescCode, ih]
    · by_cases h2 : c = '\\'
      · subst h2; simp [escList, escapeChar, h1, unescList, unescCode, ih]
      · by_cases h3 : c = '\n'
        · subst h3; simp [escList, escapeChar, h1, h2, unescList, unescCode, ih]
        · by_cases h4 : c = '\r'
          · subst h4; simp [escList, escapeChar, h1, h2, h3, unescList, unescCode, ih]
          · by_cases h5 : c = '\t'
            · subst h5; simp [escList, escapeChar, h1, h2, h3, h4, unescList, unescCode, ih]
            · simp [escList, escapeChar, h1, h2, h3, h4, h5, unescList, unescCode, ih]

theorem unescapeString_escapeString (s : String) :
    unescapeString (escapeString s) = some s := by
  simp [unescapeString, escapeString, unescList_escList]

theorem escapeString_injective : Function.Injective escapeString := by
  intro a b h
  have := congrArg unescapeString h
  rw [unescapeString_escapeString, unescapeString_escapeString] at this
  exact Option.some.inj this

/-- Models `Literal::string`: a literal token whose text is the escaped form
of the given string (the content between the quotes of the emitted string
literal). -/
def Literal.string (s : String) (sp : Span) : TokenTree :=
  .lit (escapeString s) sp

/-- Models the `SpanPair` enum: a pair of anchors from exactly one of the two
provenances (`Native` or, with the `proc-macro2` feature, `ProcMacro2`).
`proc_macro2::Span` values are also modelled as `Span`; `Span::unwrap` is the
identity on the model. -/
inductive SpanPair where
  | native (start stop : Span)
  | procMacro2 (start stop : Span)
deriving DecidableEq

/-- Models `SpanPair::start_native`.  `avail` is the result of
`proc_macro::is_available()`: a `ProcMacro2` pair resolves only when the
native facility is available (`proc_macro::is_available().then(|| start.unwrap())`). -/
def SpanPair.start_native (avail : Bool) : SpanPair → Option Span
  | .native s _ => some s
  | .procMacro2 s _ => if avail then some s else none

/-- Models `SpanPair::end_native`. -/
def SpanPair.end_native (avail : Bool) : SpanPair → Option Span
  | .native _ e => some e
  | .procMacro2 _ e => if avail then some e else none

/-- Models `From<proc_macro::Span> for SpanPair`: a single location sets both
anchors equal. -/
def SpanPair.fromSingle (sp : Span) : SpanPair :=
  .native sp sp

/-- Models `From<(proc_macro::Span, proc_macro::Span)> for SpanPair`. -/
def SpanPair.fromPair (sp : Span × Span) : SpanPair :=
  .native sp.1 sp.2

/-- Models the `Error` struct: message, optional label, ordered notes,
optional span pair. -/
structure Error where
  message : String
  label : Option String
  notes : List String
  span : Option SpanPair
deriving DecidableEq

/-- Models `Error::new`. -/
def Error.new (message : String) : Error :=
  { message := message, label := none, notes := [], span := none }

/-- Models `Error::label` (named `setLabel` because the structure field is
already called `label`): sets the label, the final call taking precedence. -/
def Error.setLabel (e : Error) (label : String) : Error :=
  { e with label := some label }

/-- Models `Error::note`: appends a note, preserving insertion order. -/
def Error.note (e : Error) (note : String) : Error :=
  { e with notes := e.notes ++ [note] }

/-- Models `Error::span` (named `setSpan` because the structure field is
already called `span`): sets the span pair, the final call taking
precedence. -/
def Error.setSpan (e : Error) (span : SpanPair) : Error :=
  { e with span := some span }

/-- The tokens the `for note in &self.notes` loop appends to the
customization stream: `, note = <quoted note>` per note, in order. -/
def noteEntries (cs : Span) : List String → List TokenTree
  | [] => []
  | n :: rest =>
    [.punct ',' .joint cs, .ident "note" cs, .punct '=' .joint cs,
      Literal.string n cs] ++ noteEntries cs rest

/-- Models the `customization` block of `Error::to_tokens`:
`message = <quoted>`, then `, label = <quoted>` if a label is present, then
`, note = <quoted>` per note in order.  `cs` is `Span::call_site()` (the
span of every `Ident::new`, `Punct::new` and `Literal::string` token). -/
def customization (e : Error) (cs : Span) : List TokenTree :=
  [.ident "message" cs, .punct '=' .joint cs, Literal.string e.message cs]
  ++ (match e.label with
      | none => []
      | some label =>
        [.punct ',' .joint cs, .ident "label" cs, .punct '=' .joint cs,
          Literal.string label cs])
  ++ noteEntries cs e.notes

/-- The `#[diagnostic::do_not_recommend]` attribute tokens, emitted when the
`msrv-1-78` feature is not enabled. -/
def dnrAttr (cs : Span) : List TokenTree :=
  [.punct '#' .joint cs,
   .group .bracket
     [.ident "diagnostic" cs, .punct ':' .joint cs, .punct ':' .joint cs,
      .ident "do_not_recommend" cs] cs]

/-- Models `inner_ts` of `Error::to_tokens`: the full fragment before the
final brace wrapping.  `msrv` is the `msrv-1-78` feature (compatibility
mode); `startSpan`/`endSpan` are the already-resolved anchors; `cs` is
`Span::call_site()`. -/
def innerTs (e : Error) (msrv : Bool) (startSpan endSpan cs : Span) :
    List TokenTree :=
  [.punct '#' .joint cs,
   .group .bracket
     [.ident "diagnostic" cs, .punct ':' .joint cs, .punct ':' .joint cs,
      .ident "on_unimplemented" cs,
      .group .parenthesis (customization e cs) cs] cs,
   .ident "trait" cs, .ident "DiagnosticHack" cs, .group .brace [] cs]
  ++ (if msrv then [] else dnrAttr cs)
  ++ [.ident "impl" cs, .ident "DiagnosticHack" cs, .ident "for" cs,
      .punct ':' .joint cs, .punct ':' .joint cs, .ident "core" cs,
      .punct ':' .joint cs, .punct ':' .joint cs, .ident "convert" cs,
      .punct ':' .joint cs, .punct ':' .joint cs, .ident "Infallible" cs,
      .group .brace [] cs,
      .ident "fn" cs, .ident "diagnostic_hack" cs,
      .punct '<' .joint cs, .ident "T" cs, .punct ':' .joint cs,
      .ident "DiagnosticHack" cs, .punct '>' .joint cs,
      .group .parenthesis [] cs, .group .brace [] cs,
      .ident "diagnostic_hack" cs, .punct ':' .joint cs, .punct ':' .joint cs,
      .punct '<' .joint cs,
      .punct '*' .joint startSpan,
      .ident "const" cs,
      .group .parenthesis [] endSpan,
      .punct '>' .joint cs,
      .group .parenthesis [] cs,
      .punct ';' .joint cs]

/-- Models `self.span.and_then(|pair| pair.start_native()).unwrap_or(call_site)`. -/
def resolveStart (e : Error) (avail : Bool) (cs : Span) : Span :=
  (e.span.bind (SpanPair.start_native avail)).getD cs

/-- Models `self.span.and_then(|pair| pair.end_native()).unwrap_or(call_site)`. -/
def resolveEnd (e : Error) (avail : Bool) (cs : Span) : Span :=
  (e.span.bind (SpanPair.end_native avail)).getD cs

/-- Models `Error::to_tokens`: appends one brace-delimited group wrapping the
whole fragment to the given token stream.  `avail` is
`proc_macro::is_available()`, `msrv` the `msrv-1-78` feature, `cs` the span
`Span::call_site()` of this particular call. -/
def Error.to_tokens (e : Error) (avail msrv : Bool) (cs : Span)
    (tokens : List TokenTree) : List TokenTree :=
  tokens ++
    [.group .brace
      (innerTs e msrv (resolveStart e avail cs) (resolveEnd e avail cs) cs) cs]

/-! ### Observation functions on token streams

These scanners inspect emitted token streams; the theorems below state the
specified properties of the emission through them. -/

mutual
/-- All spans carried by a token tree, in pre-order (a group's own span
before the spans of its contents). -/
def TokenTree.spans : TokenTree → List Span
  | .ident _ s => [s]
  | .punct _ _ s => [s]
  | .lit _ s => [s]
  | .group _ ts s => s :: spansList ts
/-- All spans carried by a token stream, in order. -/
def spansList : List TokenTree → List Span
  | [] => []
  | t :: ts => t.spans ++ spansList ts
end

mutual
/-- The texts of all literal tokens in a token tree, in order. -/
def TokenTree.lits : TokenTree → List String
  | .ident _ _ => []
  | .punct _ _ _ => []
  | .lit v _ => [v]
  | .group _ ts _ => litsList ts
/-- The texts of all literal tokens in a token stream, in order. -/
def litsList : List TokenTree → List String
  | [] => []
  | t :: ts => t.lits ++ litsList ts
end

mutual
/-- Whether an identifier with the given name occurs anywhere in a token
tree, at any nesting depth. -/
def TokenTree.containsIdent (name : String) : TokenTree → Bool
  | .ident n _ => n == name
  | .punct _ _ _ => false
  | .lit _ _ => false
  | .group _ ts _ => containsIdentList name ts
/-- Whether an identifier with the given name occurs anywhere in a token
stream. -/
def containsIdentList (name : String) : List TokenTree → Bool
  | [] => false
  | t :: ts => t.containsIdent name || containsIdentList name ts
end

mutual
/-- A token tree with every span replaced by `0`: the structural content
(kinds, texts, nesting) with the locations erased. -/
def TokenTree.eraseSpans : TokenTree → TokenTree
  | .ident n _ => .ident n 0
  | .punct c sp _ => .punct c sp 0
  | .lit v _ => .lit v 0
  | .group d ts _ => .group d (eraseSpansList ts) 0
/-- A token stream with every span erased. -/
def eraseSpansList : List TokenTree → List TokenTree
  | [] => []
  | t :: ts => t.eraseSpans :: eraseSpansList ts
end

/-- Extract the key/value entries of a customization payload stream: each
`<ident> = <literal>` run yields one `(key, literal text)` pair, in order;
separator tokens are skipped. -/
def payloadEntries : List TokenTree → List (String × String)
  | .ident k _ :: .punct '=' _ _ :: .lit v _ :: rest =>
    (k, v) :: payloadEntries rest
  | _ :: rest => payloadEntries rest
  | [] => []

/-- Whether, somewhere at the top level of the stream, a
`#[diagnostic::do_not_recommend]` attribute is immediately followed by the
`trait` keyword token — i.e. whether that attribute is attached to the trait
declaration (Rust outer-attribute syntax: an attribute attaches to the item
whose tokens immediately follow it). -/
def dnrAttrOnTrait : List TokenTree → Bool
  | .punct '#' _ _ ::
      .group .bracket
        [.ident "diagnostic" _, .punct ':' _ _, .punct ':' _ _,
          .ident "do_not_recommend" _] _ ::
      .ident "trait" _ :: _ => true
  | _ :: rest => dnrAttrOnTrait rest
  | [] => false

/-- Whether, somewhere at the top level of the stream, a
`#[diagnostic::do_not_recommend]` attribute is immediately followed by the
`impl` keyword token — i.e. whether that attribute is attached to the
implementation item. -/
def dnrAttrOnImpl : List TokenTree → Bool
  | .punct '#' _ _ ::
      .group .bracket
        [.ident "diagnostic" _, .punct ':' _ _, .punct ':' _ _,
          .ident "do_not_recommend" _] _ ::
      .ident "impl" _ :: _ => true
  | _ :: rest => dnrAttrOnImpl rest
  | [] => false

/-- A span list all of whose entries are `c`. -/
def constSpans (c : Span) (l : List Span) : Prop :=
  l = List.replicate l.length c

/-! ### Payload lemmas -/

theorem payloadEntries_entry (k v : String) (a b x : Span) (sp : Spacing)
    (l : List TokenTree) :
    payloadEntries (.ident k a :: .punct '=' sp b :: .lit v x :: l) =
      (k, v) :: payloadEntries l := rfl

theorem payloadEntries_comma (a : Span) (sp : Spacing) (l : List TokenTree) :
    payloadEntries (.punct ',' sp a :: l) = payloadEntries l := rfl

theorem payloadEntries_noteEntries (cs : Span) (ns : List String) :
    payloadEntries (noteEntries cs ns) =
      ns.map (fun n => ("note", escapeString n)) := by
  induction ns with
  | nil => rfl
  | cons n rest ih =>
    simp only [noteEntries, Literal.string, List.cons_append, List.nil_append,
      payloadEntries_comma, payloadEntries_entry, List.map_cons, ih]

theorem payloadEntries_customization (e : Error) (cs : Span) :
    payloadEntries (customization e cs) =
      ("message", escapeString e.message) ::
        ((match e.label with
          | none => []
          | some l => [("label", escapeString l)]) ++
          e.notes.map (fun n => ("note", escapeString n))) := by
  cases hl : e.label with
  | none =>
    simp only [customization, hl, Literal.string, List.nil_append,
      List.cons_append, payloadEntries_entry, payloadEntries_noteEntries]
  | some l =>
    simp only [customization, hl, Literal.string, List.nil_append,
      List.cons_append, payloadEntries_entry, payloadEntries_comma,
      payloadEntries_noteEntries, List.singleton_append]

/-! ### Claim theorems (payload) -/

/-- C1: for every description, the customization payload embedded in the
`diagnostic::on_unimplemented` attribute is an ordered key/value listing
beginning with `message = <quoted message>`, followed by
`label = <quoted label>` exactly when a label is present, followed by one
`note = <quoted note>` entry per note in original insertion order, with no
entries dropped and duplicates preserved.  The first conjunct locates the
payload inside the attribute of the emitted fragment; the second gives the
exact ordered listing. -/
theorem c1_payload_order (e : Error) (msrv : Bool) (st en cs : Span) :
    (innerTs e msrv st en cs).get? 1 =
      some (.group .bracket
        [.ident "diagnostic" cs, .punct ':' .joint cs, .punct ':' .joint cs,
          .ident "on_unimplemented" cs,
          .group .parenthesis (customization e cs) cs] cs) ∧
    payloadEntries (customization e cs) =
      ("message", escapeString e.message) ::
        ((match e.label with
          | none => []
          | some l => [("label", escapeString l)]) ++
          e.notes.map (fun n => ("note", escapeString n))) ∧
    (∀ n : String, (e.note n).notes = e.notes ++ [n]) :=
  ⟨rfl, payloadEntries_customization e cs, fun _ => rfl⟩

/-- C3: for any message string `m` (including quotes, backslashes, newlines
and non-ASCII text), rendering a description with message `m` and no label,
notes or span produces a payload whose single `message` entry, after
un-escaping the quoted string literal, equals `m` exactly. -/
theorem c3_message_round_trip (m : String) (cs : Span) :
    payloadEntries (customization (Error.new m) cs) =
      [("message", escapeString m)] ∧
    unescapeString (escapeString m) = some m := by
  refine ⟨?_, unescapeString_escapeString m⟩
  simp [payloadEntries_customization, Error.new]

/-- C7: calling the label setter twice, first with `a` then with `b`, yields
a payload containing `label = b` and, when `a ≠ b`, no `label` entry for
`a`: the final call takes precedence. -/
theorem c7_label_last_write_wins (m a b : String) (cs : Span) (h : a ≠ b) :
    ("label", escapeString b) ∈
      payloadEntries
        (customization (((Error.new m).setLabel a).setLabel b) cs) ∧
    ("label", escapeString a) ∉
      payloadEntries
        (customization (((Error.new m).setLabel a).setLabel b) cs) := by
  have hpe : payloadEntries
      (customization (((Error.new m).setLabel a).setLabel b) cs) =
      [("message", escapeString m), ("label", escapeString b)] := by
    simp [payloadEntries_customization, Error.new, Error.setLabel]
  rw [hpe]
  constructor
  · simp
  · intro hmem
    rcases List.mem_cons.mp hmem with h1 | h1
    · exact absurd (congrArg Prod.fst h1) (by simp)
    · have h2 := List.mem_singleton.mp h1
      have h3 : escapeString a = escapeString b := congrArg Prod.snd h2
      exact h (escapeString_injective h3)

/-- Witness for C7 at `m = "m"`, `a = "a"`, `b = "b"`. -/
theorem c7_label_last_write_wins_witness :
    ("label", escapeString "b") ∈
      payloadEntries
        (customization (((Error.new "m").setLabel "a").setLabel "b") 0) ∧
    ("label", escapeString "a") ∉
      payloadEntries
        (customization (((Error.new "m").setLabel "a").setLabel "b") 0) :=
  c7_label_last_write_wins "m" "a" "b" 0 (by decide)

/-! ### Claim theorems (frame, anchors, span fallback) -/

/-- C6: one render call appends exactly one token — a single brace-delimited
group wrapping the whole fragment — to the output container, and every token
already present is unchanged and keeps its position. -/
theorem c6_appends_single_group (e : Error) (avail msrv : Bool) (cs : Span)
    (tokens : List TokenTree) :
    e.to_tokens avail msrv cs tokens =
      tokens ++
        [.group .brace
          (innerTs e msrv (resolveStart e avail cs) (resolveEnd e avail cs)
            cs) cs] ∧
    (e.to_tokens avail msrv cs tokens).length = tokens.length + 1 ∧
    (e.to_tokens avail msrv cs tokens).take tokens.length = tokens := by
  refine ⟨rfl, ?_, ?_⟩
  · simp [Error.to_tokens]
  · simp [Error.to_tokens, List.take_left]

/-- C2: in the emitted call expression, the first token of the
type-argument clause (the `*` punct following the final `<`) carries the
resolved start location and the distinct trailing empty parenthesized group
carries the resolved end location, where resolution takes the configured
span pair's anchors when a span is set (a `ProcMacro2` pair only when the
native facility is available) and falls back to the render call's own
location otherwise; a single location sets both anchors equal
(`SpanPair.fromSingle`). -/
theorem c2_anchor_tokens (e : Error) (avail msrv : Bool) (cs : Span)
    (tokens : List TokenTree) :
    (∃ pre,
      e.to_tokens avail msrv cs tokens =
        tokens ++
          [.group .brace
            (pre ++
              [.punct '<' .joint cs,
               .punct '*' .joint (resolveStart e avail cs),
               .ident "const" cs,
               .group .parenthesis [] (resolveEnd e avail cs),
               .punct '>' .joint cs,
               .group .parenthesis [] cs,
               .punct ';' .joint cs]) cs]) ∧
    (resolveStart e avail cs, resolveEnd e avail cs) =
      (match e.span with
        | none => (cs, cs)
        | some (.native s t) => (s, t)
        | some (.procMacro2 s t) => if avail then (s, t) else (cs, cs)) ∧
    (∀ sp : Span, SpanPair.fromSingle sp = .native sp sp) := by
  refine ⟨?_, ?_, fun _ => rfl⟩
  · refine ⟨[.punct '#' .joint cs,
      .group .bracket
        [.ident "diagnostic" cs, .punct ':' .joint cs, .punct ':' .joint cs,
          .ident "on_unimplemented" cs,
          .group .parenthesis (customization e cs) cs] cs,
      .ident "trait" cs, .ident "DiagnosticHack" cs, .group .brace [] cs]
      ++ (if msrv then [] else dnrAttr cs)
      ++ [.ident "impl" cs, .ident "DiagnosticHack" cs, .ident "for" cs,
          .punct ':' .joint cs, .punct ':' .joint cs, .ident "core" cs,
          .punct ':' .joint cs, .punct ':' .joint cs, .ident "convert" cs,
          .punct ':' .joint cs, .punct ':' .joint cs, .ident "Infallible" cs,
          .group .brace [] cs,
          .ident "fn" cs, .ident "diagnostic_hack" cs,
          .punct '<' .joint cs, .ident "T" cs, .punct ':' .joint cs,
          .ident "DiagnosticHack" cs, .punct '>' .joint cs,
          .group .parenthesis [] cs, .group .brace [] cs,
          .ident "diagnostic_hack" cs, .punct ':' .joint cs,
          .punct ':' .joint cs], ?_⟩
    cases msrv <;> simp [Error.to_tokens, innerTs, dnrAttr]
  · cases hs : e.span with
    | none => simp [resolveStart, resolveEnd, hs]
    | some p =>
      cases p with
      | native s t =>
        simp [resolveStart, resolveEnd, hs, SpanPair.start_native,
          SpanPair.end_native]
      | procMacro2 s t =>
        cases avail <;>
          simp [resolveStart, resolveEnd, hs, SpanPair.start_native,
            SpanPair.end_native]

/-- C5: a span supplied through the `proc-macro2` compatibility provenance
resolves to no location for both anchors when the native compiler facility
is unavailable, and rendering then behaves exactly as if no span had been
supplied. -/
theorem c5_procmacro2_unavailable_fallback (m : String) (l : Option String)
    (ns : List String) (s t : Span) (msrv : Bool) (cs : Span)
    (tokens : List TokenTree) :
    (SpanPair.procMacro2 s t).start_native false = none ∧
    (SpanPair.procMacro2 s t).end_native false = none ∧
    Error.to_tokens ⟨m, l, ns, some (.procMacro2 s t)⟩ false msrv cs tokens =
      Error.to_tokens ⟨m, l, ns, none⟩ false msrv cs tokens := by
  refine ⟨rfl, rfl, rfl⟩

/-! ### Scanner lemmas over list concatenation -/

theorem spansList_append (l1 l2 : List TokenTree) :
    spansList (l1 ++ l2) = spansList l1 ++ spansList l2 := by
  induction l1 with
  | nil => simp [spansList]
  | cons t ts ih => simp [spansList, ih]

theorem litsList_append (l1 l2 : List TokenTree) :
    litsList (l1 ++ l2) = litsList l1 ++ litsList l2 := by
  induction l1 with
  | nil => simp [litsList]
  | cons t ts ih => simp [litsList, ih]

theorem containsIdentList_append (name : String) (l1 l2 : List TokenTree) :
    containsIdentList name (l1 ++ l2) =
      (containsIdentList name l1 || containsIdentList name l2) := by
  induction l1 with
  | nil => simp [containsIdentList]
  | cons t ts ih => simp [containsIdentList, ih, Bool.or_assoc]

theorem eraseSpansList_append (l1 l2 : List TokenTree) :
    eraseSpansList (l1 ++ l2) = eraseSpansList l1 ++ eraseSpansList l2 := by
  induction l1 with
  | nil => simp [eraseSpansList]
  | cons t ts ih => simp [eraseSpansList, ih]

/-! ### Span-erasure lemmas: the emitted structure does not depend on the
span arguments -/

theorem eraseSpans_noteEntries (cs : Span) (ns : List String) :
    eraseSpansList (noteEntries cs ns) = eraseSpansList (noteEntries 0 ns) := by
  induction ns with
  | nil => rfl
  | cons n rest ih =>
    simp [noteEntries, Literal.string, eraseSpansList, TokenTree.eraseSpans, ih]

theorem eraseSpans_customization (e : Error) (cs : Span) :
    eraseSpansList (customization e cs) = eraseSpansList (customization e 0) := by
  cases hl : e.label with
  | none =>
    simp [customization, hl, Literal.string, eraseSpansList,
      TokenTree.eraseSpans, eraseSpansList_append, eraseSpans_noteEntries]
  | some l =>
    simp [customization, hl, Literal.string, eraseSpansList,
      TokenTree.eraseSpans, eraseSpansList_append, eraseSpans_noteEntries]

theorem eraseSpans_innerTs (e : Error) (msrv : Bool) (st en cs : Span) :
    eraseSpansList (innerTs e msrv st en cs) =
      eraseSpansList (innerTs e msrv 0 0 0) := by
  cases msrv <;> cases hl : e.label <;>
    simp [innerTs, dnrAttr, customization, hl, Literal.string,
      eraseSpansList_append, eraseSpansList, TokenTree.eraseSpans,
      eraseSpans_noteEntries]

/-- C8: rendering the same description twice into two independent containers
produces two appended fragments that are structurally identical (same token
kinds, texts and nesting) regardless of the call-site location of each
render call.  (`Error.to_tokens` is a pure function of its arguments in this
embedding, so rendering reads the description without mutating it and has no
effect other than the appended fragment, which C6 pins down.) -/
theorem c8_render_structurally_identical (e : Error) (avail msrv : Bool)
    (cs1 cs2 : Span) (ts1 ts2 : List TokenTree) :
    eraseSpansList ((e.to_tokens avail msrv cs1 ts1).drop ts1.length) =
      eraseSpansList ((e.to_tokens avail msrv cs2 ts2).drop ts2.length) := by
  have h1 : (e.to_tokens avail msrv cs1 ts1).drop ts1.length =
      [.group .brace
        (innerTs e msrv (resolveStart e avail cs1) (resolveEnd e avail cs1)
          cs1) cs1] := by
    simp [Error.to_tokens, List.drop_left]
  have h2 : (e.to_tokens avail msrv cs2 ts2).drop ts2.length =
      [.group .brace
        (innerTs e msrv (resolveStart e avail cs2) (resolveEnd e avail cs2)
          cs2) cs2] := by
    simp [Error.to_tokens, List.drop_left]
  rw [h1, h2]
  have g1 := eraseSpans_innerTs e msrv (resolveStart e avail cs1)
    (resolveEnd e avail cs1) cs1
  have g2 := eraseSpans_innerTs e msrv (resolveStart e avail cs2)
    (resolveEnd e avail cs2) cs2
  exact congrArg (fun l => [TokenTree.group Delimiter.brace l 0])
    (g1.trans g2.symm)

/-! ### Literal-collection lemmas -/

theorem lits_noteEntries (cs : Span) (ns : List String) :
    litsList (noteEntries cs ns) = ns.map escapeString := by
  induction ns with
  | nil => rfl
  | cons n rest ih =>
    simp [noteEntries, Literal.string, litsList, TokenTree.lits, ih]

theorem lits_customization (e : Error) (cs : Span) :
    litsList (customization e cs) =
      (e.message :: (e.label.toList ++ e.notes)).map escapeString := by
  cases hl : e.label with
  | none =>
    simp [customization, hl, Literal.string, litsList, TokenTree.lits,
      litsList_append, lits_noteEntries]
  | some l =>
    simp [customization, hl, Literal.string, litsList, TokenTree.lits,
      litsList_append, lits_noteEntries]

theorem lits_innerTs (e : Error) (msrv : Bool) (st en cs : Span) :
    litsList (innerTs e msrv st en cs) =
      (e.message :: (e.label.toList ++ e.notes)).map escapeString := by
  cases msrv <;> cases hl : e.label <;>
    simp [innerTs, dnrAttr, customization, hl, Literal.string, Option.toList,
      litsList_append, litsList, TokenTree.lits, lits_noteEntries]

/-- C9: rendering is total over every well-formed description — on any
message, label and note strings (empty, control characters, non-ASCII) and
any or no span it produces exactly one appended fragment — and every
configured string is embedded as a correctly escaped string literal: the
literal tokens of the fragment are exactly the escaped message, label and
notes, and un-escaping recovers each original string. -/
theorem c9_total_and_escaped (e : Error) (avail msrv : Bool) (cs : Span)
    (tokens : List TokenTree) :
    (e.to_tokens avail msrv cs tokens).length = tokens.length + 1 ∧
    litsList ((e.to_tokens avail msrv cs tokens).drop tokens.length) =
      (e.message :: (e.label.toList ++ e.notes)).map escapeString ∧
    (∀ s : String, unescapeString (escapeString s) = some s) := by
  refine ⟨by simp [Error.to_tokens], ?_, unescapeString_escapeString⟩
  have h1 : (e.to_tokens avail msrv cs tokens).drop tokens.length =
      [.group .brace
        (innerTs e msrv (resolveStart e avail cs) (resolveEnd e avail cs) cs)
        cs] := by
    simp [Error.to_tokens, List.drop_left]
  rw [h1]
  calc
    litsList
        [.group .brace
          (innerTs e msrv (resolveStart e avail cs) (resolveEnd e avail cs)
            cs) cs] =
        litsList
          (innerTs e msrv (resolveStart e avail cs) (resolveEnd e avail cs)
            cs) ++ [] := rfl
    _ = (e.message :: (e.label.toList ++ e.notes)).map escapeString := by
      rw [List.append_nil, lits_innerTs]

/-! ### Span-collection lemmas -/

theorem constSpans_nil (c : Span) : constSpans c [] := rfl

theorem constSpans_cons (c : Span) {l : List Span} (h : constSpans c l) :
    constSpans c (c :: l) := by
  unfold constSpans at *
  rw [List.length_cons, List.replicate_succ]
  exact congrArg (c :: ·) h

theorem constSpans_append (c : Span) {l1 l2 : List Span}
    (h1 : constSpans c l1) (h2 : constSpans c l2) :
    constSpans c (l1 ++ l2) := by
  unfold constSpans at *
  rw [List.length_append, List.replicate_add]
  rw [h1, h2]
  simp

theorem constSpans_noteEntries (cs : Span) (ns : List String) :
    constSpans cs (spansList (noteEntries cs ns)) := by
  induction ns with
  | nil => exact constSpans_nil cs
  | cons n rest ih =>
    have : spansList (noteEntries cs (n :: rest)) =
        cs :: cs :: cs :: cs :: spansList (noteEntries cs rest) := by
      simp [noteEntries, Literal.string, spansList, TokenTree.spans]
    rw [this]
    exact constSpans_cons cs (constSpans_cons cs
      (constSpans_cons cs (constSpans_cons cs ih)))

theorem constSpans_customization (e : Error) (cs : Span) :
    constSpans cs (spansList (customization e cs)) := by
  cases hl : e.label with
  | none =>
    have : spansList (customization e cs) =
        cs :: cs :: cs :: spansList (noteEntries cs e.notes) := by
      simp [customization, hl, Literal.string, spansList, TokenTree.spans,
        spansList_append]
    rw [this]
    exact constSpans_cons cs (constSpans_cons cs
      (constSpans_cons cs (constSpans_noteEntries cs e.notes)))
  | some l =>
    have : spansList (customization e cs) =
        cs :: cs :: cs :: cs :: cs :: cs :: cs ::
          spansList (noteEntries cs e.notes) := by
      simp [customization, hl, Literal.string, spansList, TokenTree.spans,
        spansList_append]
    rw [this]
    exact constSpans_cons cs (constSpans_cons cs (constSpans_cons cs
      (constSpans_cons cs (constSpans_cons cs (constSpans_cons cs
        (constSpans_cons cs (constSpans_noteEntries cs e.notes)))))))

/-- C10: every token of the emitted fragment other than the two anchor
tokens (the `*` punct leading the type argument and the trailing empty
parenthesized group) carries the call-site location of the render call: the
in-order span listing of the fragment is call-site everywhere except the
two anchor positions, which carry the resolved start and end locations.
Consequently changing the configured span changes the locations of exactly
those two tokens and nothing else in the output. -/
theorem c10_span_isolation (e : Error) (avail msrv : Bool) (cs : Span)
    (tokens : List TokenTree) :
    ∃ pre,
      spansList ((e.to_tokens avail msrv cs tokens).drop tokens.length) =
        pre ++ [resolveStart e avail cs, cs, resolveEnd e avail cs,
          cs, cs, cs] ∧
      pre = List.replicate pre.length cs := by
  have hdrop : (e.to_tokens avail msrv cs tokens).drop tokens.length =
      [.group .brace
        (innerTs e msrv (resolveStart e avail cs) (resolveEnd e avail cs) cs)
        cs] := by
    simp [Error.to_tokens, List.drop_left]
  rw [hdrop]
  refine ⟨[cs, cs, cs, cs, cs, cs, cs, cs] ++
    spansList (customization e cs) ++ [cs, cs, cs] ++
    (if msrv then [] else [cs, cs, cs, cs, cs, cs]) ++
    List.replicate 26 cs, ?_, ?_⟩
  · cases msrv <;>
      simp [innerTs, dnrAttr, spansList_append, spansList, TokenTree.spans,
        List.replicate]
  · have hc := constSpans_customization e cs
    have h8 : constSpans cs ([cs, cs, cs, cs, cs, cs, cs, cs] : List Span) := by
      unfold constSpans; rfl
    have h3 : constSpans cs ([cs, cs, cs] : List Span) := by
      unfold constSpans; rfl
    have h6 : constSpans cs
        (if msrv then [] else ([cs, cs, cs, cs, cs, cs] : List Span)) := by
      cases msrv
      · unfold constSpans; rfl
      · exact constSpans_nil cs
    have h26 : constSpans cs (List.replicate 26 cs) := by
      unfold constSpans; simp
    exact constSpans_append cs (constSpans_append cs (constSpans_append cs
      (constSpans_append cs h8 hc) h3) h6) h26

/-! ### The `do_not_recommend` attribute (C4) -/

theorem contains_dnr_noteEntries (cs : Span) (ns : List String) :
    containsIdentList "do_not_recommend" (noteEntries cs ns) = false := by
  induction ns with
  | nil => rfl
  | cons n rest ih =>
    simp [noteEntries, Literal.string, containsIdentList,
      TokenTree.containsIdent, ih]

theorem contains_dnr_customization (e : Error) (cs : Span) :
    containsIdentList "do_not_recommend" (customization e cs) = false := by
  cases hl : e.label <;>
    simp [customization, hl, Literal.string, containsIdentList,
      TokenTree.containsIdent, containsIdentList_append,
      contains_dnr_noteEntries]

/-- C4 counterexample: at the concrete description `Error.new "m"` rendered
outside compatibility mode, no `#[diagnostic::do_not_recommend]` attribute
is attached to the empty trait declaration (no such attribute's tokens
immediately precede the `trait` keyword, as Rust outer-attribute syntax
would require); the attribute's tokens instead immediately precede the
`impl` item. -/
theorem c4_counterexample :
    dnrAttrOnTrait (innerTs (Error.new "m") false 0 0 0) = false ∧
    dnrAttrOnImpl (innerTs (Error.new "m") false 0 0 0) = true :=
  ⟨rfl, rfl⟩

/-- C4 amended: when not in compatibility mode the render emits the
`#[diagnostic::do_not_recommend]` suppression attribute immediately before
the unconditional `impl` item (so it attaches to that impl, not to the
empty trait declaration); in compatibility mode the emitted fragment
contains no `do_not_recommend` token at any nesting depth. -/
theorem c4_suppression_attribute (e : Error) (st en cs : Span) :
    dnrAttrOnImpl (innerTs e false st en cs) = true ∧
    dnrAttrOnTrait (innerTs e false st en cs) = false ∧
    containsIdentList "do_not_recommend" (innerTs e true st en cs) = false := by
  refine ⟨rfl, rfl, ?_⟩
  cases hl : e.label <;>
    simp [innerTs, customization, hl, Literal.string,
      containsIdentList_append, containsIdentList, TokenTree.containsIdent,
      contains_dnr_noteEntries]

end ProcDiag
